import Mathlib

set_option maxHeartbeats 1000000

open scoped Classical

noncomputable section

namespace DynaModel

/-- Random stream: the injectable random source of the spec (section 5 and
section 9).  Each numpy random call consumes the next natural number of the
stream. -/
abbrev RNG := ℕ → ℕ

/-- Consume one draw from the random stream. -/
def RNG.next (g : RNG) : ℕ × RNG := (g 0, fun n => g (n + 1))

/-- Modelled from the spec: the Environment interface (`environment.py` is not
among the sources; only its consumer `agent.py` is).  Per section 2 and
section 6 it exposes a transition tensor `T`, a reward table `R`, a start
state and a goal state, here for `nS+1` states and `nA+1` actions. -/
structure Env (nS nA : ℕ) where
  T : Fin (nS + 1) → Fin (nA + 1) → Fin (nS + 1) → ℝ
  R : Fin (nS + 1) → Fin (nA + 1) → ℝ
  start_state : Fin (nS + 1)
  goal_state : Fin (nS + 1)

/-- The agent's scalar configuration (`DynaAgent.__init__`). -/
structure DynaAgent where
  alpha : ℝ
  gamma : ℝ
  epsilon : ℝ

/-- The agent's mutable tables: `self.Q`, `self.experience_buffer`,
`self.action_count`, `self.action_taken`, `self.history` and the current real
state `self.s`.  The experience buffer is the `(nS+1)*(nA+1) × 4` integer
array whose row `s*(nA+1)+a` holds `[s, a, r, s1]`; its reward column has
integer dtype, so it stores an `ℤ` value.  The history rows keep the reward
as a float (the first `np.vstack` promotes the history array to float), so
history rewards are `ℝ`. -/
structure AgentState (nS nA : ℕ) where
  Q : Fin (nS + 1) → Fin (nA + 1) → ℝ
  experience_buffer : Fin ((nS + 1) * (nA + 1)) → Fin (nS + 1) × Fin (nA + 1) × ℤ × Fin (nS + 1)
  action_count : Fin (nS + 1) → Fin (nA + 1) → ℕ
  action_taken : Fin (nS + 1) → Fin (nA + 1) → ℝ
  history : List (Fin (nS + 1) × Fin (nA + 1) × ℝ × Fin (nS + 1))
  s : Fin (nS + 1)

variable {nS nA : ℕ}

/-- Flat index of the buffer row for the pair `(s, a)`:
`s*self.num_actions+a` in `_init_experience_buffer` and
`_update_experience_buffer`. -/
def idx (s : Fin (nS + 1)) (a : Fin (nA + 1)) : Fin ((nS + 1) * (nA + 1)) :=
  ⟨s.val * (nA + 1) + a.val, by
    have ha : a.val < nA + 1 := a.isLt
    have hs : s.val + 1 ≤ nS + 1 := s.isLt
    calc s.val * (nA + 1) + a.val < s.val * (nA + 1) + (nA + 1) := by omega
      _ = (s.val + 1) * (nA + 1) := by ring
      _ ≤ (nS + 1) * (nA + 1) := Nat.mul_le_mul_right _ hs⟩

/-- State component encoded in a flat buffer index. -/
def decodeS (i : Fin ((nS + 1) * (nA + 1))) : Fin (nS + 1) :=
  ⟨i.val / (nA + 1), (Nat.div_lt_iff_lt_mul (Nat.succ_pos nA)).mpr i.isLt⟩

/-- Action component encoded in a flat buffer index. -/
def decodeA (i : Fin ((nS + 1) * (nA + 1))) : Fin (nA + 1) :=
  ⟨i.val % (nA + 1), Nat.mod_lt _ (Nat.succ_pos nA)⟩

/-- numpy's value cast of a float into an int-dtype array truncates toward
zero (C-style cast), as happens to the reward assigned into
`self.experience_buffer`. -/
def truncInt (r : ℝ) : ℤ := if 0 ≤ r then ⌊r⌋ else ⌈r⌉

/-- Single-cell assignment `Q[s,a] = v` on the Q table. -/
def Qupd (Q : Fin (nS + 1) → Fin (nA + 1) → ℝ) (s : Fin (nS + 1)) (a : Fin (nA + 1))
    (v : ℝ) : Fin (nS + 1) → Fin (nA + 1) → ℝ :=
  Function.update Q s (Function.update (Q s) a v)

/-- `np.max(self.Q[s1])`: maximum entry of a Q-table row. -/
def maxRow (f : Fin (nA + 1) → ℝ) : ℝ :=
  Finset.univ.sup' ⟨0, Finset.mem_univ 0⟩ f

/-- `np.argmax(self.Q[s])`: the first index attaining the row maximum
(numpy's documented semantics: in case of multiple occurrences of the maximum
value, the index of the first occurrence is returned). -/
def argmaxFirst (f : Fin (nA + 1) → ℝ) : Fin (nA + 1) :=
  (Finset.univ.filter fun j => f j = maxRow f).min' (by
    obtain ⟨b, _, hb⟩ := Finset.exists_mem_eq_sup' ⟨0, Finset.mem_univ 0⟩ f
    exact ⟨b, Finset.mem_filter.mpr ⟨Finset.mem_univ b, hb.symm⟩⟩)

/-- `_init_q_values` + `_init_experience_buffer` + `_init_action_count` +
`_init_history` + `_init_action_taken`, together with `self.s =
self.start_state` (the reset branch of `simulate`).  The buffer loop writes
row `s*(nA+1)+a := [s, a, 0, s]` for every pair, i.e. row `i` holds the pair
decoded from `i` with a zero-reward self-loop. -/
def resetState (env : Env nS nA) : AgentState nS nA :=
  { Q := fun _ _ => 0
    experience_buffer := fun i => (decodeS i, decodeA i, 0, decodeS i)
    action_count := fun _ _ => 0
    action_taken := fun _ _ => 0
    history := []
    s := env.start_state }

/-- `_update_qvals(s, a, r, s1, bonus)`: the baseline one-step update is
always applied; with `bonus == True` a second update with the
bonus-augmented target is applied afterwards, reading the Q table as it is
after the first update and the action count as it is at call time. -/
def update_qvals (ag : DynaAgent) (st : AgentState nS nA) (s : Fin (nS + 1))
    (a : Fin (nA + 1)) (r : ℝ) (s1 : Fin (nS + 1)) (bonus : Bool) : AgentState nS nA :=
  let Q1 := Qupd st.Q s a
    (st.Q s a + ag.alpha * (r + ag.gamma * maxRow (st.Q s1) - st.Q s a))
  if bonus then
    let Q2 := Qupd Q1 s a
      (Q1 s a + ag.alpha * (r + ag.epsilon * Real.sqrt (st.action_count s a) +
        ag.gamma * maxRow (Q1 s1) - Q1 s a))
    { st with Q := Q2 }
  else
    { st with Q := Q1 }

/-- `_update_experience_buffer(s, a, r, s1)`: overwrite row `s*(nA+1)+a` with
`[s, a, r, s1]`; the reward is cast into the integer dtype of the buffer. -/
def update_experience_buffer (st : AgentState nS nA) (s : Fin (nS + 1))
    (a : Fin (nA + 1)) (r : ℝ) (s1 : Fin (nS + 1)) : AgentState nS nA :=
  { st with experience_buffer :=
      Function.update st.experience_buffer (idx s a) (s, a, truncInt r, s1) }

/-- `_update_action_count(s, a)`: `self.action_count += 1` followed by
`self.action_count[s,a] = 0`. -/
def update_action_count (st : AgentState nS nA) (s : Fin (nS + 1))
    (a : Fin (nA + 1)) : AgentState nS nA :=
  let C1 := fun s' a' => st.action_count s' a' + 1
  { st with action_count := Function.update C1 s (Function.update (C1 s) a 0) }

/-- `_update_history(s, a, r, s1)`: append the row `[s, a, r, s1]`. -/
def update_history (st : AgentState nS nA) (s : Fin (nS + 1)) (a : Fin (nA + 1))
    (r : ℝ) (s1 : Fin (nS + 1)) : AgentState nS nA :=
  { st with history := st.history ++ [(s, a, r, s1)] }

/-- `np.random.choice(len(self.Q[s]))`: a uniform draw over the `nA+1`
actions, realized from one consumed stream value. -/
def uniformAction (nA : ℕ) (u : ℕ) : Fin (nA + 1) :=
  ⟨u % (nA + 1), Nat.mod_lt _ (Nat.succ_pos nA)⟩

/-- `_policy(s)`: if all entries of the row `Q[s]` equal `Q[s,0]` (the
condition `np.all(np.unique(self.Q[s])==self.Q[s,0])`), draw an action at
random; otherwise take `np.argmax(self.Q[s])`. -/
def policyFn (st : AgentState nS nA) (s : Fin (nS + 1)) (g : RNG) : Fin (nA + 1) × RNG :=
  if ∀ a', st.Q s a' = st.Q s 0 then
    (uniformAction nA (RNG.next g).1, (RNG.next g).2)
  else
    (argmaxFirst (st.Q s), g)

/-- `np.random.randint(self.experience_buffer.shape[0])`: the planning draw of
a buffer row index, realized from one consumed stream value. -/
def sampleIndex (nS nA : ℕ) (u : ℕ) : Fin ((nS + 1) * (nA + 1)) :=
  ⟨u % ((nS + 1) * (nA + 1)),
    Nat.mod_lt _ (Nat.mul_pos (Nat.succ_pos nS) (Nat.succ_pos nA))⟩

/-- The buffer row read by one planning update:
`self.experience_buffer[mod]`. -/
def sampleDraw (st : AgentState nS nA) (u : ℕ) :
    Fin (nS + 1) × Fin (nA + 1) × ℤ × Fin (nS + 1) :=
  st.experience_buffer (sampleIndex nS nA u)

/-- `_plan(num_planning_updates)`: repeat `num_planning_updates` times: draw a
uniform buffer row, read `[s, a, r, s1]` from it and apply
`_update_qvals(s, a, r, s1, bonus=True)`. -/
def plan (ag : DynaAgent) : ℕ → AgentState nS nA → RNG → AgentState nS nA × RNG
  | 0, st, g => (st, g)
  | m + 1, st, g =>
    let u := (RNG.next g).1
    let g1 := (RNG.next g).2
    let row := sampleDraw st u
    plan ag m (update_qvals ag st row.1 row.2.1 (row.2.2.1 : ℝ) row.2.2.2 true) g1

/-- The `if num_planning_updates is not None` guard around `_plan`. -/
def planOpt (ag : DynaAgent) (numPlan : Option ℕ) (st : AgentState nS nA) (g : RNG) :
    AgentState nS nA × RNG :=
  match numPlan with
  | none => (st, g)
  | some m => plan ag m st g

/-- Modelled from the spec: `np.random.choice(np.arange(num_states),
p=self.T[s, a, :])` is the environment's stochastic next-state sampler, an
external PRNG-driven library routine; per section 5 and section 9 randomness
is an injectable source, so the draw is taken from the injected random
stream (one consumed value determines the next state).  No claim in this
development depends on the induced sampling distribution. -/
def envDraw (_env : Env nS nA) (_s : Fin (nS + 1)) (_a : Fin (nA + 1)) (g : RNG) :
    Fin (nS + 1) × RNG :=
  ((⟨(RNG.next g).1 % (nS + 1), Nat.mod_lt _ (Nat.succ_pos nS)⟩ : Fin (nS + 1)),
    (RNG.next g).2)

/-- One iteration of the `for _ in range(num_trials)` loop of `simulate`:
policy selection, environment next-state draw, reward lookup, no-bonus value
update, experience-buffer record, action-count touch, history append, the
optional planning phase, and finally the goal-reset transition of
`self.s`. -/
def stepBody (ag : DynaAgent) (env : Env nS nA) (numPlan : Option ℕ)
    (st : AgentState nS nA) (g : RNG) : AgentState nS nA × RNG :=
  let pa := policyFn st st.s g
  let a := pa.1
  let g1 := pa.2
  let pe := envDraw env st.s a g1
  let s1 := pe.1
  let g2 := pe.2
  let r := env.R st.s a
  let st1 := update_qvals ag st st.s a r s1 false
  let st2 := update_experience_buffer st1 st.s a r s1
  let st3 := update_action_count st2 st.s a
  let st4 := update_history st3 st.s a r s1
  let pp := planOpt ag numPlan st4 g2
  ({ pp.1 with s := if s1 = env.goal_state then env.start_state else s1 }, pp.2)

/-- The trial loop of `simulate`: execute exactly the requested number of
real steps. -/
def simLoop (ag : DynaAgent) (env : Env nS nA) (numPlan : Option ℕ) :
    ℕ → AgentState nS nA → RNG → AgentState nS nA × RNG
  | 0, st, g => (st, g)
  | n + 1, st, g =>
    simLoop ag env numPlan n (stepBody ag env numPlan st g).1 (stepBody ag env numPlan st g).2

/-- `simulate(num_trials, reset_agent, num_planning_updates)`: optionally
reset all the agent's tables and the current state, then run the trial
loop. -/
def simulate (ag : DynaAgent) (env : Env nS nA) (numPlan : Option ℕ) (n : ℕ)
    (reset : Bool) (st : AgentState nS nA) (g : RNG) : AgentState nS nA × RNG :=
  simLoop ag env numPlan n (if reset then resetState env else st) g

/-- `np.cumsum`: running prefix sums of a list. -/
def cumsum : List ℝ → List ℝ
  | [] => []
  | x :: xs => x :: (cumsum xs).map (fun y => x + y)

/-- `get_performace()`: `np.cumsum(self.history[:, 2])`, the running
cumulative sum of the reward column of the history. -/
def get_performace (st : AgentState nS nA) : List ℝ :=
  cumsum (st.history.map fun row => row.2.2.1)

/-- Number of history rows since the last row whose (state, action) key is
`(s, a)` (the whole history length when no such row exists). -/
def sinceLast (l : List (Fin (nS + 1) × Fin (nA + 1) × ℝ × Fin (nS + 1)))
    (s : Fin (nS + 1)) (a : Fin (nA + 1)) : ℕ :=
  (l.reverse.takeWhile fun row => decide ¬(row.1 = s ∧ row.2.1 = a)).length

/-- Key invariant of the experience buffer: the row filed under the pair
`(s, a)` carries `s` in its state column and `a` in its action column. -/
def bufferKeysOK (st : AgentState nS nA) : Prop :=
  ∀ s a, (st.experience_buffer (idx s a)).1 = s ∧ (st.experience_buffer (idx s a)).2.1 = a

/-- A one-state, one-action environment used to instantiate theorems at
concrete inputs. -/
def env0 : Env 0 0 :=
  { T := fun _ _ _ => 1, R := fun _ _ => 0, start_state := 0, goal_state := 0 }

/-- A concrete agent configuration. -/
def ag0 : DynaAgent := { alpha := 1, gamma := 0, epsilon := 0 }

/-- The constant-zero random stream. -/
def g0 : RNG := fun _ => 0

theorem Qupd_apply (Q : Fin (nS + 1) → Fin (nA + 1) → ℝ) (s : Fin (nS + 1))
    (a : Fin (nA + 1)) (v : ℝ) (s' : Fin (nS + 1)) (a' : Fin (nA + 1)) :
    Qupd Q s a v s' a' = if s' = s ∧ a' = a then v else Q s' a' := by
  unfold Qupd
  by_cases h1 : s' = s
  · subst h1
    rw [Function.update_same]
    by_cases h2 : a' = a
    · subst h2; rw [Function.update_same, if_pos ⟨rfl, rfl⟩]
    · rw [Function.update_noteq h2, if_neg (by tauto)]
  · rw [Function.update_noteq h1, if_neg (by tauto)]

theorem update_qvals_frame (ag : DynaAgent) (st : AgentState nS nA) (s : Fin (nS + 1))
    (a : Fin (nA + 1)) (r : ℝ) (s1 : Fin (nS + 1)) (b : Bool) :
    (update_qvals ag st s a r s1 b).experience_buffer = st.experience_buffer
    ∧ (update_qvals ag st s a r s1 b).action_count = st.action_count
    ∧ (update_qvals ag st s a r s1 b).history = st.history
    ∧ (update_qvals ag st s a r s1 b).s = st.s := by
  cases b <;> exact ⟨rfl, rfl, rfl, rfl⟩

theorem update_action_count_apply (st : AgentState nS nA) (s : Fin (nS + 1))
    (a : Fin (nA + 1)) (s' : Fin (nS + 1)) (a' : Fin (nA + 1)) :
    (update_action_count st s a).action_count s' a'
      = if s' = s ∧ a' = a then 0 else st.action_count s' a' + 1 := by
  show Function.update (fun s' a' => st.action_count s' a' + 1) s
      (Function.update (fun a' => st.action_count s a' + 1) a 0) s' a' = _
  by_cases h1 : s' = s
  · subst h1
    rw [Function.update_same]
    by_cases h2 : a' = a
    · subst h2; rw [Function.update_same, if_pos ⟨rfl, rfl⟩]
    · rw [Function.update_noteq h2, if_neg (by tauto)]
  · rw [Function.update_noteq h1, if_neg (by tauto)]

theorem decodeS_idx (s : Fin (nS + 1)) (a : Fin (nA + 1)) : decodeS (idx s a) = s := by
  apply Fin.ext
  show (s.val * (nA + 1) + a.val) / (nA + 1) = s.val
  rw [Nat.mul_comm s.val, Nat.mul_add_div (Nat.succ_pos nA), Nat.div_eq_of_lt a.isLt]
  omega

theorem decodeA_idx (s : Fin (nS + 1)) (a : Fin (nA + 1)) : decodeA (idx s a) = a := by
  apply Fin.ext
  show (s.val * (nA + 1) + a.val) % (nA + 1) = a.val
  rw [Nat.mul_comm s.val, Nat.mul_add_mod, Nat.mod_eq_of_lt a.isLt]

theorem idx_inj {s s' : Fin (nS + 1)} {a a' : Fin (nA + 1)} (h : idx s a = idx s' a') :
    s = s' ∧ a = a' := by
  constructor
  · rw [← decodeS_idx s a, h, decodeS_idx]
  · rw [← decodeA_idx s a, h, decodeA_idx]

theorem truncInt_intCast (z : ℤ) : truncInt (z : ℝ) = z := by
  unfold truncInt
  split
  · exact Int.floor_intCast z
  · exact Int.ceil_intCast z

theorem argmaxFirst_attains (f : Fin (nA + 1) → ℝ) : f (argmaxFirst f) = maxRow f := by
  have h : argmaxFirst f ∈ Finset.univ.filter fun j => f j = maxRow f :=
    Finset.min'_mem _ _
  exact (Finset.mem_filter.mp h).2

theorem argmaxFirst_le (f : Fin (nA + 1) → ℝ) (j : Fin (nA + 1)) (hj : f j = maxRow f) :
    argmaxFirst f ≤ j :=
  Finset.min'_le _ _ (Finset.mem_filter.mpr ⟨Finset.mem_univ j, hj⟩)

theorem le_maxRow (f : Fin (nA + 1) → ℝ) (j : Fin (nA + 1)) : f j ≤ maxRow f :=
  Finset.le_sup' f (Finset.mem_univ j)

theorem cumsum_length (l : List ℝ) : (cumsum l).length = l.length := by
  induction l with
  | nil => rfl
  | cons x xs ih => simp [cumsum, ih]

theorem cumsum_getElem (l : List ℝ) (k : ℕ) :
    (cumsum l)[k]? = if k < l.length then some ((l.take (k + 1)).sum) else none := by
  induction l generalizing k with
  | nil => simp [cumsum]
  | cons x xs ih =>
    cases k with
    | zero => simp [cumsum]
    | succ k =>
      by_cases h : k < xs.length
      · simp [cumsum, List.getElem?_map, ih k, h]
      · simp [cumsum, List.getElem?_map, ih k, h]

theorem sinceLast_append (l : List (Fin (nS + 1) × Fin (nA + 1) × ℝ × Fin (nS + 1)))
    (row : Fin (nS + 1) × Fin (nA + 1) × ℝ × Fin (nS + 1)) (s : Fin (nS + 1))
    (a : Fin (nA + 1)) :
    sinceLast (l ++ [row]) s a
      = if row.1 = s ∧ row.2.1 = a then 0 else sinceLast l s a + 1 := by
  unfold sinceLast
  rw [List.reverse_append]
  by_cases h : row.1 = s ∧ row.2.1 = a
  · simp [h]
  · rw [if_neg h]
    rcases not_and_or.mp h with h1 | h1 <;>
      simp [List.takeWhile_cons, h1]

theorem plan_preserves (ag : DynaAgent) (m : ℕ) (st : AgentState nS nA) (g : RNG) :
    (plan ag m st g).1.experience_buffer = st.experience_buffer
    ∧ (plan ag m st g).1.action_count = st.action_count
    ∧ (plan ag m st g).1.history = st.history
    ∧ (plan ag m st g).1.s = st.s := by
  induction m generalizing st g with
  | zero => exact ⟨rfl, rfl, rfl, rfl⟩
  | succ m ih =>
    obtain ⟨h1, h2, h3, h4⟩ := ih
      (update_qvals ag st (sampleDraw st (RNG.next g).1).1 (sampleDraw st (RNG.next g).1).2.1
        ((sampleDraw st (RNG.next g).1).2.2.1 : ℝ) (sampleDraw st (RNG.next g).1).2.2.2 true)
      (RNG.next g).2
    obtain ⟨f1, f2, f3, f4⟩ := update_qvals_frame ag st (sampleDraw st (RNG.next g).1).1
      (sampleDraw st (RNG.next g).1).2.1 ((sampleDraw st (RNG.next g).1).2.2.1 : ℝ)
      (sampleDraw st (RNG.next g).1).2.2.2 true
    exact ⟨h1.trans f1, h2.trans f2, h3.trans f3, h4.trans f4⟩

theorem planOpt_preserves (ag : DynaAgent) (numPlan : Option ℕ) (st : AgentState nS nA)
    (g : RNG) :
    (planOpt ag numPlan st g).1.experience_buffer = st.experience_buffer
    ∧ (planOpt ag numPlan st g).1.action_count = st.action_count
    ∧ (planOpt ag numPlan st g).1.history = st.history
    ∧ (planOpt ag numPlan st g).1.s = st.s := by
  cases numPlan with
  | none => exact ⟨rfl, rfl, rfl, rfl⟩
  | some m => exact plan_preserves ag m st g

theorem stepBody_history (ag : DynaAgent) (env : Env nS nA) (numPlan : Option ℕ)
    (st : AgentState nS nA) (g : RNG) :
    (stepBody ag env numPlan st g).1.history
      = st.history ++ [(st.s, (policyFn st st.s g).1, env.R st.s (policyFn st st.s g).1,
          (envDraw env st.s (policyFn st st.s g).1 (policyFn st st.s g).2).1)] := by
  show ((planOpt ag numPlan _ _).1).history = _
  rw [(planOpt_preserves ag numPlan _ _).2.2.1]
  rfl

theorem stepBody_action_count (ag : DynaAgent) (env : Env nS nA) (numPlan : Option ℕ)
    (st : AgentState nS nA) (g : RNG) (s' : Fin (nS + 1)) (a' : Fin (nA + 1)) :
    (stepBody ag env numPlan st g).1.action_count s' a'
      = if s' = st.s ∧ a' = (policyFn st st.s g).1 then 0
        else st.action_count s' a' + 1 := by
  show ((planOpt ag numPlan _ _).1).action_count s' a' = _
  rw [(planOpt_preserves ag numPlan _ _).2.1]
  exact update_action_count_apply _ _ _ _ _

theorem stepBody_history_length (ag : DynaAgent) (env : Env nS nA) (numPlan : Option ℕ)
    (st : AgentState nS nA) (g : RNG) :
    (stepBody ag env numPlan st g).1.history.length = st.history.length + 1 := by
  rw [stepBody_history]
  simp

theorem simLoop_history_length (ag : DynaAgent) (env : Env nS nA) (numPlan : Option ℕ)
    (n : ℕ) : ∀ (st : AgentState nS nA) (g : RNG),
    (simLoop ag env numPlan n st g).1.history.length = st.history.length + n := by
  induction n with
  | zero => intro st g; rfl
  | succ n ih =>
    intro st g
    show (simLoop ag env numPlan n _ _).1.history.length = _
    rw [ih, stepBody_history_length]
    omega

theorem countInv_step (ag : DynaAgent) (env : Env nS nA) (numPlan : Option ℕ)
    (st : AgentState nS nA) (g : RNG)
    (h : ∀ s a, st.action_count s a = sinceLast st.history s a) :
    ∀ s a, (stepBody ag env numPlan st g).1.action_count s a
      = sinceLast (stepBody ag env numPlan st g).1.history s a := by
  intro s a
  rw [stepBody_action_count, stepBody_history, sinceLast_append]
  by_cases h1 : s = st.s ∧ a = (policyFn st st.s g).1
  · rw [if_pos h1, if_pos ⟨h1.1.symm, h1.2.symm⟩]
  · rw [if_neg h1, if_neg (fun hc => h1 ⟨hc.1.symm, hc.2.symm⟩), h s a]

theorem countInv_loop (ag : DynaAgent) (env : Env nS nA) (numPlan : Option ℕ) (n : ℕ) :
    ∀ (st : AgentState nS nA) (g : RNG),
    (∀ s a, st.action_count s a = sinceLast st.history s a) →
    ∀ s a, (simLoop ag env numPlan n st g).1.action_count s a
      = sinceLast (simLoop ag env numPlan n st g).1.history s a := by
  induction n with
  | zero => intro st g h; exact h
  | succ n ih =>
    intro st g h
    exact ih _ _ (countInv_step ag env numPlan st g h)

/-- Claim C1: a call to the value-table update with the bonus flag set changes
`Q[s,a]` twice in one invocation: the baseline update
`Q[s,a] += alpha*(r + gamma*max Q[s1] - Q[s,a])` is applied first, then a
second additive update with the bonus-augmented target is applied on top of
it, using the Q values resulting from the first update and the recency
counter at call time — i.e. the bonus call equals a no-bonus call followed by
a second no-bonus call whose reward is augmented by
`epsilon*sqrt(C[s,a])`; with the bonus flag unset only the baseline update is
applied. -/
theorem update_qvals_double_update (ag : DynaAgent) (st : AgentState nS nA)
    (s : Fin (nS + 1)) (a : Fin (nA + 1)) (r : ℝ) (s1 : Fin (nS + 1)) :
    (∀ s' a', (update_qvals ag st s a r s1 false).Q s' a'
        = if s' = s ∧ a' = a then
            st.Q s a + ag.alpha * (r + ag.gamma * maxRow (st.Q s1) - st.Q s a)
          else st.Q s' a')
    ∧ update_qvals ag st s a r s1 true
        = update_qvals ag (update_qvals ag st s a r s1 false) s a
            (r + ag.epsilon * Real.sqrt (st.action_count s a)) s1 false := by
  constructor
  · intro s' a'
    exact Qupd_apply st.Q s a _ s' a'
  · show AgentState.mk _ _ _ _ _ _ = AgentState.mk _ _ _ _ _ _
    congr 1

/-- Claim C2: `simulate(n, ...)` performs exactly `n` real steps and returns
(the history grows by exactly `n` rows; reaching the goal state never stops
the loop early); each real step executes, in order, policy selection,
environment next-state sampling, reward lookup, the no-bonus value update,
the experience-model record, the recency-counter touch, the history append,
then the optional planning phase, and finally sets the current state to the
start state when the sampled next state is the goal state and to the sampled
next state otherwise. -/
theorem simulate_loop_structure (ag : DynaAgent) (env : Env nS nA)
    (numPlan : Option ℕ) (n : ℕ) (reset : Bool) (st : AgentState nS nA) (g : RNG) :
    (simulate ag env numPlan n reset st g).1.history.length
        = (if reset then resetState env else st).history.length + n
    ∧ (simulate ag env numPlan n true st g).1.history.length = n
    ∧ simLoop ag env numPlan (n + 1) st g
        = simLoop ag env numPlan n (stepBody ag env numPlan st g).1
            (stepBody ag env numPlan st g).2
    ∧ planOpt ag none st g = (st, g)
    ∧ stepBody ag env numPlan st g
        = (let a := (policyFn st st.s g).1
           let g1 := (policyFn st st.s g).2
           let s1 := (envDraw env st.s a g1).1
           let g2 := (envDraw env st.s a g1).2
           let r := env.R st.s a
           let st4 := update_history (update_action_count (update_experience_buffer
               (update_qvals ag st st.s a r s1 false) st.s a r s1) st.s a) st.s a r s1
           let pp := planOpt ag numPlan st4 g2
           ({ pp.1 with s := if s1 = env.goal_state then env.start_state else s1 }, pp.2))
    ∧ (stepBody ag env numPlan st g).1.s
        = (if (envDraw env st.s (policyFn st st.s g).1 (policyFn st st.s g).2).1
              = env.goal_state
           then env.start_state
           else (envDraw env st.s (policyFn st st.s g).1 (policyFn st st.s g).2).1) := by
  refine ⟨?_, ?_, rfl, rfl, rfl, rfl⟩
  · exact simLoop_history_length ag env numPlan n _ g
  · show (simLoop ag env numPlan n (resetState env) g).1.history.length = n
    rw [simLoop_history_length]
    simp [resetState]

/-- Claim C3: invariant maintained by every real step from a reset: for every
pair `(s,a)`, `C[s,a]` equals the number of real steps elapsed since `(s,a)`
was last chosen (the number of logged rows after its last occurrence in the
history), or the number of real steps since the reset when `(s,a)` was never
chosen; and the touch operation of a real step first increments every entry
by 1 and then zeroes the entry of the just-taken pair. -/
theorem action_count_recency_invariant (ag : DynaAgent) (env : Env nS nA)
    (numPlan : Option ℕ) (n : ℕ) (st : AgentState nS nA) (g : RNG) :
    (∀ s a, (simulate ag env numPlan n true st g).1.action_count s a
        = sinceLast (simulate ag env numPlan n true st g).1.history s a)
    ∧ ∀ (st' : AgentState nS nA) s0 a0 s' a',
        (update_action_count st' s0 a0).action_count s' a'
          = if s' = s0 ∧ a' = a0 then 0 else st'.action_count s' a' + 1 := by
  constructor
  · exact countInv_loop ag env numPlan n (resetState env) g (fun s a => rfl)
  · exact fun st' s0 a0 s' a' => update_action_count_apply st' s0 a0 s' a'

/-- Claim C7: the performance-reporting operation returns one value per real
step of the history, the `k`-th value being the sum of the rewards of the
first `k+1` logged transitions, in log order (the exact prefix sums of the
reward column). -/
theorem get_performace_prefix_sums (st : AgentState nS nA) :
    (get_performace st).length = st.history.length
    ∧ ∀ k : ℕ, (get_performace st)[k]?
        = if k < st.history.length then
            some (((st.history.take (k + 1)).map fun row => row.2.2.1).sum)
          else none := by
  constructor
  · rw [get_performace, cumsum_length, List.length_map]
  · intro k
    rw [get_performace, cumsum_getElem]
    simp [List.map_take]

/-- Claim C8: performing the planning updates leaves the experience model,
the recency counter, the history log and the current real state unchanged:
planning writes only the value table. -/
theorem plan_writes_only_value_table (ag : DynaAgent) (m : ℕ)
    (st : AgentState nS nA) (g : RNG) :
    (plan ag m st g).1.experience_buffer = st.experience_buffer
    ∧ (plan ag m st g).1.action_count = st.action_count
    ∧ (plan ag m st g).1.history = st.history
    ∧ (plan ag m st g).1.s = st.s :=
  plan_preserves ag m st g

/-- Claim C9: two runs of the simulation with identical configuration,
environment and the same random source (which drives tie-break selection,
transition sampling and planning-pair sampling) produce identical history
logs and identical value tables. -/
theorem simulate_deterministic (ag : DynaAgent) (env : Env nS nA)
    (numPlan : Option ℕ) (n : ℕ) (reset : Bool) (st : AgentState nS nA)
    (g1 g2 : RNG) (h : g1 = g2) :
    (simulate ag env numPlan n reset st g1).1.history
        = (simulate ag env numPlan n reset st g2).1.history
    ∧ (simulate ag env numPlan n reset st g1).1.Q
        = (simulate ag env numPlan n reset st g2).1.Q := by
  subst h
  exact ⟨rfl, rfl⟩

/-- Witness for C9 at a concrete configuration, environment, step count and
random stream. -/
theorem simulate_deterministic_witness :
    (simulate ag0 env0 (some 1) 2 true (resetState env0) g0).1.history
        = (simulate ag0 env0 (some 1) 2 true (resetState env0) g0).1.history
    ∧ (simulate ag0 env0 (some 1) 2 true (resetState env0) g0).1.Q
        = (simulate ag0 env0 (some 1) 2 true (resetState env0) g0).1.Q :=
  simulate_deterministic ag0 env0 (some 1) 2 true (resetState env0) g0 g0 rfl

/-- Claim C4 (amended): after `record(s,a,r,s1)`, a `sample()` that draws the
pair `(s,a)` returns `(s, a, trunc(r), s1)` where `trunc` is the truncation
toward zero performed by the integer dtype of the buffer; in particular it
returns exactly `(s, a, r, s1)` whenever `r` is an integer value. -/
theorem sample_after_record (st : AgentState nS nA) (s : Fin (nS + 1))
    (a : Fin (nA + 1)) (r : ℝ) (s1 : Fin (nS + 1)) (u : ℕ)
    (hu : u % ((nS + 1) * (nA + 1)) = (idx s a).val) :
    sampleDraw (update_experience_buffer st s a r s1) u = (s, a, truncInt r, s1)
    ∧ ∀ z : ℤ, r = (z : ℝ) → truncInt r = z := by
  constructor
  · have hidx : sampleIndex nS nA u = idx s a := Fin.ext hu
    show (update_experience_buffer st s a r s1).experience_buffer (sampleIndex nS nA u) = _
    rw [hidx]
    show Function.update st.experience_buffer (idx s a) (s, a, truncInt r, s1) (idx s a) = _
    rw [Function.update_same]
  · intro z hz
    rw [hz]
    exact truncInt_intCast z

/-- Witness for C4 (amended) at a concrete buffer, pair, draw and integer
reward. -/
theorem sample_after_record_witness :
    sampleDraw (update_experience_buffer (resetState env0) 0 0 (3 : ℝ) 0) 0
        = (0, 0, truncInt (3 : ℝ), 0)
    ∧ truncInt (3 : ℝ) = 3 := by
  have h := sample_after_record (resetState env0) 0 0 (3 : ℝ) 0 0 (by decide)
  exact ⟨h.1, h.2 3 (by norm_num)⟩

/-- Counterexample to C4 as stated: recording the non-integer reward `1/2`
for the pair `(0,0)` and then sampling that pair returns a stored reward that
differs from the recorded one — the integer buffer has altered it. -/
theorem sample_after_record_counterexample :
    ((sampleDraw (update_experience_buffer (resetState env0) 0 0 ((1 : ℝ) / 2) 0) 0).2.2.1 : ℝ)
      ≠ (1 : ℝ) / 2 := by
  have h := sample_after_record (resetState env0) 0 0 ((1 : ℝ) / 2) 0 0 (by decide)
  rw [h.1]
  show (truncInt ((1 : ℝ) / 2) : ℝ) ≠ (1 : ℝ) / 2
  have ht : truncInt ((1 : ℝ) / 2) = 0 := by
    unfold truncInt
    rw [if_pos (by norm_num)]
    norm_num
  rw [ht]
  norm_num

/-- Claim C5: the policy chooses at random among all actions exactly when all
action values of row `s` are equal to `Q[s,0]` (including the all-zero row
after reset) — the random draw can produce every action — and otherwise
deterministically returns the first index attaining the maximum value of the
row: the returned index attains the row maximum and every strictly smaller
index does not. -/
theorem policy_select_rule (st : AgentState nS nA) (s : Fin (nS + 1)) (g : RNG) :
    policyFn st s g
        = (if ∀ a', st.Q s a' = st.Q s 0 then
            (uniformAction nA (RNG.next g).1, (RNG.next g).2)
          else (argmaxFirst (st.Q s), g))
    ∧ (∀ b : Fin (nA + 1), ∃ u : ℕ, uniformAction nA u = b)
    ∧ st.Q s (argmaxFirst (st.Q s)) = maxRow (st.Q s)
    ∧ (∀ j, st.Q s j ≤ maxRow (st.Q s))
    ∧ (∀ j, argmaxFirst (st.Q s) ≤ j ∨ st.Q s j ≠ maxRow (st.Q s)) := by
  refine ⟨rfl, ?_, argmaxFirst_attains _, fun j => le_maxRow _ j, ?_⟩
  · intro b
    exact ⟨b.val, Fin.ext (Nat.mod_eq_of_lt b.isLt)⟩
  · intro j
    by_cases h : st.Q s j = maxRow (st.Q s)
    · exact Or.inl (argmaxFirst_le _ j h)
    · exact Or.inr h

/-- Claim C6: at reset every (state, action) pair receives an entry in the
experience model, initialized to a self-loop with reward 0 (row
`(s, a, 0, s)` for the pair `(s,a)`), and the planning draw can reach every
one of the `(nS+1)*(nA+1)` buffer rows. -/
theorem experience_buffer_selfloop_sampleable (env : Env nS nA) :
    (∀ s a, (resetState env).experience_buffer (idx s a) = (s, a, 0, s))
    ∧ (∀ i : Fin ((nS + 1) * (nA + 1)), ∃ u : ℕ, sampleIndex nS nA u = i) := by
  constructor
  · intro s a
    show (decodeS (idx s a), decodeA (idx s a), (0 : ℤ), decodeS (idx s a)) = _
    rw [decodeS_idx, decodeA_idx]
  · intro i
    exact ⟨i.val, Fin.ext (Nat.mod_eq_of_lt i.isLt)⟩

/-- Claim C10: the buffer row filed at index `s*(nA+1)+a` always stores `s` in
its state column and `a` in its action column: this holds after a reset and
is preserved by every record operation and by every planning phase. -/
theorem buffer_keys_match_position :
    (∀ env : Env nS nA, bufferKeysOK (resetState env))
    ∧ (∀ (st : AgentState nS nA) (s : Fin (nS + 1)) (a : Fin (nA + 1)) (r : ℝ)
          (s1 : Fin (nS + 1)), bufferKeysOK st →
          bufferKeysOK (update_experience_buffer st s a r s1))
    ∧ (∀ (ag : DynaAgent) (m : ℕ) (st : AgentState nS nA) (g : RNG),
          bufferKeysOK st → bufferKeysOK (plan ag m st g).1) := by
  refine ⟨?_, ?_, ?_⟩
  · intro env s a
    exact ⟨decodeS_idx s a, decodeA_idx s a⟩
  · intro st s a r s1 h s' a'
    have hgoal : (update_experience_buffer st s a r s1).experience_buffer
        = Function.update st.experience_buffer (idx s a) (s, a, truncInt r, s1) := rfl
    rw [hgoal]
    by_cases hi : idx s' a' = idx s a
    · obtain ⟨hs, ha⟩ := idx_inj hi
      rw [hi, Function.update_same]
      exact ⟨hs.symm, ha.symm⟩
    · rw [Function.update_noteq hi]
      exact h s' a'
  · intro ag m st g h s' a'
    rw [(plan_preserves ag m st g).1]
    exact h s' a'

/-- Witness for C10: the invariant holds concretely after a reset followed by
one record operation. -/
theorem buffer_keys_match_position_witness :
    bufferKeysOK (update_experience_buffer (resetState env0) 0 0 0 0) :=
  buffer_keys_match_position.2.1 (resetState env0) 0 0 0 0
    (buffer_keys_match_position.1 env0)

end DynaModel
